import Mathlib

/-!
# Verification of gotinydb filter / index / revision behaviour

Shallow embedding of the gotinydb source files:

* `src/filters.go`        — filter construction (`newfilterValue`, `CompareTo`, ...)
* `src/unnamed/part_000`  — `Index.DoesFilterApplyToIndex`, references
* `src/index_internal.go` — `indexType.getIDsForRangeOfValues`
* `src/collection/meta.go`— `newIndexReference`, `IndexReference.GetValue`
* `src/collections_test.go` — `TestRollback` (pins the revision-store semantics)

Machine integers are modelled by `Int`/`Nat` (no overflow is relevant to the
claims below), Go `nil` results by `Option`, and a Go panic (out-of-range
slice access) by `Option.none` at the function result.
-/

namespace GoTinyDB

/-! ## Scalar values and index types

`vars.IndexType` has the constructors used across the sources:
`StringIndex`, `IntIndex`, `UintIndex`, `TimeIndex`, `BytesIndex`. -/

inductive IndexType where
  | StringIndex
  | IntIndex
  | UintIndex
  | TimeIndex
  | BytesIndex
  deriving DecidableEq, Repr

/-- A Go runtime value as it can be handed to `newfilterValue` or
`newIndexReference` through an `interface{}` argument.  Each Go static type
that the source distinguishes with a type switch gets its own constructor;
`time.Time` is modelled by its nanosecond count (an `Int`), Go floats by an
abstract numeric carrier (`Int`) since only zero tests and identity are used
by the code under verification, and any other runtime type by `other`. -/
inductive GoValue where
  | str (s : String)
  | int (n : Int)
  | int8 (n : Int)
  | int16 (n : Int)
  | int32 (n : Int)
  | int64 (n : Int)
  | uint (n : Nat)
  | uint8 (n : Nat)
  | uint16 (n : Nat)
  | uint32 (n : Nat)
  | uint64 (n : Nat)
  | float32 (q : Int)
  | float64 (q : Int)
  | time (t : Int)
  | bytes (b : List Nat)
  | other
  deriving DecidableEq, Repr

inductive FilterOperator where
  | Equal
  | Greater
  | Less
  | Between
  deriving DecidableEq, Repr

/-- Errors surfaced by the embedded fragments. -/
inductive GoError where
  | ErrWrongType
  | ErrRevisionOutOfRange
  deriving DecidableEq, Repr

/-! ## `src/filters.go` -/

/-- `filterValue` from `src/filters.go`: a typed filter comparison value. -/
structure FilterValue where
  Typ : IndexType  -- field named `Type` in the Go source; `Type` is reserved in Lean
  Value : GoValue
  deriving DecidableEq, Repr

/-- `newfilterValue` from `src/filters.go` lines 15–33: type-switch on the
runtime type; strings get `StringIndex`, all signed and unsigned integer
types get `IntIndex`, `time.Time` gets `TimeIndex`, everything else is the
error `ErrWrongType`. -/
def newfilterValue (value : GoValue) : Except GoError FilterValue :=
  match value with
  | .str _    => .ok { Typ := .StringIndex, Value := value }
  | .int _    => .ok { Typ := .IntIndex, Value := value }
  | .int8 _   => .ok { Typ := .IntIndex, Value := value }
  | .int16 _  => .ok { Typ := .IntIndex, Value := value }
  | .int32 _  => .ok { Typ := .IntIndex, Value := value }
  | .int64 _  => .ok { Typ := .IntIndex, Value := value }
  | .uint _   => .ok { Typ := .IntIndex, Value := value }
  | .uint8 _  => .ok { Typ := .IntIndex, Value := value }
  | .uint16 _ => .ok { Typ := .IntIndex, Value := value }
  | .uint32 _ => .ok { Typ := .IntIndex, Value := value }
  | .uint64 _ => .ok { Typ := .IntIndex, Value := value }
  | .time _   => .ok { Typ := .TimeIndex, Value := value }
  | _         => .error .ErrWrongType

/-- `Filter` from the sources: operator, selector, the `equal` flag, and the
list of typed comparison values.  `selectorHash` is kept as the selector
itself (`buildSelectorHash` is an opaque stable hash of the selector; no
claim depends on its value, only on its being determined by the selector). -/
structure Filter where
  operator : FilterOperator
  selector : List String := []
  selectorHash : List String := []
  equal : Bool := false
  values : List FilterValue := []
  deriving DecidableEq, Repr

/-- `NewFilter` from `src/filters.go` lines 8–12. -/
def NewFilter (t : FilterOperator) : Filter :=
  { operator := t }

/-- `Filter.CompareTo` from `src/filters.go` lines 36–59, translated
branch for branch:

* a parse error from `newfilterValue` returns the filter unchanged;
* a `nil` values slice or a non-`Between` operator installs the singleton;
* otherwise, when the list already has at least two elements the element at
  index 1 is overwritten, and then — unconditionally — the new value is
  appended. -/
def Filter.CompareTo (f : Filter) (val : GoValue) : Filter :=
  match newfilterValue val with
  | .error _ => f
  | .ok filterValuePointer =>
    if f.values = [] ∨ f.operator ≠ .Between then
      { f with values := [filterValuePointer] }
    else
      let vs := if f.values.length ≥ 2 then f.values.set 1 filterValuePointer
                else f.values
      { f with values := vs ++ [filterValuePointer] }

/-- `Filter.EqualWanted` from `src/filters.go` lines 67–70. -/
def Filter.EqualWanted (f : Filter) : Filter :=
  { f with equal := true }

/-- `Filter.SetSelector` from `src/filters.go` lines 73–77. -/
def Filter.SetSelector (f : Filter) (s : List String) : Filter :=
  { f with selector := s, selectorHash := s }

/-! ## `src/unnamed/part_000`: `Index` and `DoesFilterApplyToIndex` -/

/-- `Index` from `src/unnamed/part_000` lines 15–23 (the pure data part:
name, selector, declared type). -/
structure Index where
  Name : String
  Selector : List String
  Typ : IndexType  -- field named `Type` in the Go source; `Type` is reserved in Lean
  deriving DecidableEq, Repr

/-- The selector loop of `DoesFilterApplyToIndex` (lines 62–66):
`for j := range i.Selector { if filter.selector[j] != i.Selector[j] { return false } }`.
The access `filter.selector[j]` panics in Go when `j` is out of range for
the filter selector; the panic is modelled by `none`.  The loop walks the
index selector, comparing position by position against the filter
selector. -/
def selectorLoop (idxSel filtSel : List String) : Option Bool :=
  match idxSel, filtSel with
  | [], _ => some true
  | _ :: _, [] => none
  | a :: as, b :: bs => if b ≠ a then some false else selectorLoop as bs

/-- `Index.DoesFilterApplyToIndex` from `src/unnamed/part_000` lines 60–76:
the selector loop first (a mismatch returns `false`, an out-of-range access
panics), then `true` iff at least one filter value has the index's declared
type. -/
def Index.DoesFilterApplyToIndex (i : Index) (filter : Filter) : Option Bool :=
  match selectorLoop i.Selector filter.selector with
  | none => none
  | some false => some false
  | some true => some (filter.values.any fun value => value.Typ = i.Typ)

/-! ## `src/index_internal.go`: `getIDsForRangeOfValues`

The bolt bucket backing an index is an ordered map from encoded value
(bytes) to a serialized sorted id list.  It is modelled as a list of
`(key, ids)` entries kept sorted by key; `newIDs` deserialization is
modelled away by storing the id list already structured (the claims under
verification never exercise a corrupt stored list).  The bolt cursor is a
position `p` in that list with `0 ≤ p ≤ length`; `Seek k` places it at the
first entry with key `≥ k` (`p = length` when none, in which case bolt
returns a `nil` pair), `Next` moves to `p+1` and `Prev` to `p-1` (`Prev`
from past-the-end yields the last entry). -/

/-- An encoded index value: a byte string. -/
def Key := List Nat
  deriving DecidableEq, Repr

/-- One bucket entry: encoded value and the id list stored under it. -/
def Entry := Key × List String
  deriving DecidableEq, Repr

/-- Go `bytes.Compare`: lexicographic byte comparison, a strict prefix
sorting first. -/
def bytesCompare : List Nat → List Nat → Ordering
  | [], [] => .eq
  | [], _ :: _ => .lt
  | _ :: _, [] => .gt
  | a :: as, b :: bs =>
    if a < b then .lt else if b < a then .gt else bytesCompare as bs

/-- Index of the entry a bolt `Seek indexedValue` lands on: the first entry
whose key is `≥ indexedValue` (equals `bucket.length` when the cursor goes
past the end). -/
def seekIdx (bucket : List Entry) (indexedValue : Key) : Nat :=
  bucket.findIdx fun e => bytesCompare indexedValue e.1 ≠ .gt

/-- Lexicographic order on character lists, comparing code points — the
order of Go's byte-wise comparison of id strings. -/
def charListLt : List Char → List Char → Bool
  | [], [] => false
  | [], _ :: _ => true
  | _ :: _, [] => false
  | a :: as, b :: bs =>
    if a.toNat < b.toNat then true
    else if b.toNat < a.toNat then false
    else charListLt as bs

/-- Lexicographic order on id strings (see `charListLt`). -/
def idLt (a b : String) : Bool :=
  charListLt a.data b.data

/-- Modelled from the spec: `idsType.AddIDs` / IdSet `add` (§4.6) — the
`idsType` implementation is not under `src/`.  Each incoming id is inserted
at its id-sorted position unless already present (ordered, deduplicating).
The per-id `values` annotations are irrelevant to every claim and are
omitted. -/
def insertId : List String → String → List String
  | [], id => [id]
  | x :: xs, id =>
    if id = x then x :: xs
    else if idLt id x then id :: x :: xs
    else x :: insertId xs id

/-- `AddIDs acc ids` adds every id of `ids` (one bucket entry's id set) to
the accumulated set `acc`.  See `insertId`. -/
def AddIDs (acc : List String) (ids : List String) : List String :=
  ids.foldl insertId acc

/-- Whether the `limit` check of `getIDsForRangeOfValues` (lines 68–78)
breaks the loop at the current key: with `keepEqual`, break when
`limit < key`; without, break when `limit ≤ key`.  A `nil` limit (Greater /
Less queries) never breaks. -/
def rangeBreak (limit : Option Key) (keepEqual : Bool) (k : Key) : Bool :=
  match limit with
  | none => false
  | some lim =>
    if keepEqual then bytesCompare lim k = .lt
    else bytesCompare lim k ≠ .gt

/-- The cursor loop of `getIDsForRangeOfValues` (lines 58–87): for each
successive entry — the walk list is the sequence of entries `Next` (resp.
`Prev`) will produce — stop on cursor exhaustion or when the limit is
crossed; otherwise add the entry's ids and, when the accumulated count
exceeds `iql` (`options.InternalQueryLimit`), truncate to exactly `iql`
and stop. -/
def rangeLoop (limit : Option Key) (keepEqual : Bool) (iql : Nat) :
    List Entry → List String → List String
  | [], acc => acc
  | (k, ids) :: rest, acc =>
    if rangeBreak limit keepEqual k then acc
    else
      let acc2 := AddIDs acc ids
      if acc2.length > iql then acc2.take iql
      else rangeLoop limit keepEqual iql rest acc2

/-- The pre-loop accumulator of `getIDsForRangeOfValues` (lines 38–49): the
ids found at the seek position are added — before the cursor loop starts —
exactly when that entry's key equals `indexedValue` and `keepEqual` is set.
(When the seek runs past the end bolt hands back a `nil` key whose id set
is empty, so adding it would be a no-op; the model returns `[]` there.) -/
def seekAcc (bucket : List Entry) (indexedValue : Key) (keepEqual : Bool) :
    List String :=
  match bucket.get? (seekIdx bucket indexedValue) with
  | some (k, ids) => if k = indexedValue ∧ keepEqual then AddIDs [] ids else []
  | none => []

/-- `indexType.getIDsForRangeOfValues` from `src/index_internal.go`
lines 27–89.  `Seek` positions the cursor; the entry it lands on
contributes only through `seekAcc`; the loop then walks `Next`
(`bucket.drop (p+1)`) or `Prev` (`(bucket.take p).reverse`). -/
def getIDsForRangeOfValues (bucket : List Entry) (indexedValue : Key)
    (limit : Option Key) (keepEqual increasing : Bool) (iql : Nat) :
    List String :=
  let p := seekIdx bucket indexedValue
  let acc := seekAcc bucket indexedValue keepEqual
  if increasing then rangeLoop limit keepEqual iql (bucket.drop (p + 1)) acc
  else rangeLoop limit keepEqual iql ((bucket.take p).reverse) acc

/-! ## `src/collection/meta.go`: `newIndexReference` and `GetValue` -/

/-- `IndexReference` from `src/collection/meta.go` lines 17–34: one field
per possible scalar type (the Go zero value is the default).  The field
`Int8aVlue` keeps the source's spelling. -/
structure IndexReference where
  IndexName : String := ""
  StringValue : String := ""
  IntValue : Int := 0
  Int8aVlue : Int := 0
  Int16Value : Int := 0
  Int32Value : Int := 0
  Int64Value : Int := 0
  UintValue : Nat := 0
  Uint8Value : Nat := 0
  Uint16Value : Nat := 0
  Uint32Value : Nat := 0
  Uint64Value : Nat := 0
  Float32Value : Int := 0
  Float64Value : Int := 0
  TimeValue : Int := 0
  deriving DecidableEq, Repr

/-- `newIndexReference` from `src/collection/meta.go` lines 37–69: an
if-else chain of type assertions; the matching typed field is set, all
others keep their zero value; an unsupported runtime type sets nothing. -/
def newIndexReference (indexName : String) (value : GoValue) : IndexReference :=
  let ref : IndexReference := { IndexName := indexName }
  match value with
  | .str v => { ref with StringValue := v }
  | .int v => { ref with IntValue := v }
  | .int8 v => { ref with Int8aVlue := v }
  | .int16 v => { ref with Int16Value := v }
  | .int32 v => { ref with Int32Value := v }
  | .int64 v => { ref with Int64Value := v }
  | .uint v => { ref with UintValue := v }
  | .uint8 v => { ref with Uint8Value := v }
  | .uint16 v => { ref with Uint16Value := v }
  | .uint32 v => { ref with Uint32Value := v }
  | .uint64 v => { ref with Uint64Value := v }
  | .float32 v => { ref with Float32Value := v }
  | .float64 v => { ref with Float64Value := v }
  | .time v => { ref with TimeValue := v }
  | _ => ref

/-- `IndexReference.GetValue` from `src/collection/meta.go` lines 71–102:
returns the first field (in declaration order) holding a non-zero value,
`nil` (here `none`) when every field is zero.  `TimeValue.IsZero()` is the
zero test of the time model. -/
def IndexReference.GetValue (ref : IndexReference) : Option GoValue :=
  if ref.StringValue ≠ "" then some (.str ref.StringValue)
  else if ref.IntValue ≠ 0 then some (.int ref.IntValue)
  else if ref.Int8aVlue ≠ 0 then some (.int8 ref.Int8aVlue)
  else if ref.Int16Value ≠ 0 then some (.int16 ref.Int16Value)
  else if ref.Int32Value ≠ 0 then some (.int32 ref.Int32Value)
  else if ref.Int64Value ≠ 0 then some (.int64 ref.Int64Value)
  else if ref.UintValue ≠ 0 then some (.uint ref.UintValue)
  else if ref.Uint8Value ≠ 0 then some (.uint8 ref.Uint8Value)
  else if ref.Uint16Value ≠ 0 then some (.uint16 ref.Uint16Value)
  else if ref.Uint32Value ≠ 0 then some (.uint32 ref.Uint32Value)
  else if ref.Uint64Value ≠ 0 then some (.uint64 ref.Uint64Value)
  else if ref.Float32Value ≠ 0 then some (.float32 ref.Float32Value)
  else if ref.Float64Value ≠ 0 then some (.float64 ref.Float64Value)
  else if ref.TimeValue ≠ 0 then some (.time ref.TimeValue)
  else none

/-! ## Versioned record store (per record)

The `Collection.Rollback` / revision-store implementation is not under
`src/`; only `TestRollback` (`src/collections_test.go` lines 660–758) is.
The model below follows spec §4.4 — `Put` archives the replaced live
payload as a new revision with its timestamp, bounded FIFO of depth `K`;
`Rollback(N)` loads the revision at offset `N` and re-puts it, returning
the restored revision's timestamp; an offset beyond the stored revisions
is `RevisionOutOfRange` and leaves the state untouched — with the offset
origin fixed by `TestRollback`: the test's rollback at offset `0` returns
the *second* put's timestamp (302) and payload, so offset `0` addresses
the most recent *archived* revision, not the live payload.  The theorem
`rollbackModel_matches_TestRollback` below replays the test against this
model step by step. -/

/-- State of one record: the live `(timestamp, payload)` (absent before the
first put) and the archived previous revisions, most recent first. -/
structure RecordState where
  live : Option (Nat × String) := none
  archived : List (Nat × String) := []
  deriving DecidableEq, Repr

/-- Modelled from the spec: §4.4 `Put` — the replaced live revision is
archived (bounded FIFO of depth `K`, eldest discarded), and the new payload
becomes live under the supplied monotonic timestamp `t`. -/
def RecordState.put (s : RecordState) (K : Nat) (t : Nat) (payload : String) :
    RecordState :=
  { live := some (t, payload),
    archived :=
      match s.live with
      | none => s.archived
      | some lv => (lv :: s.archived).take K }

/-- Modelled from the spec: §4.5 `get(id)` — the live payload. -/
def RecordState.get (s : RecordState) : Option String :=
  s.live.map Prod.snd

/-- Modelled from the spec: §4.4 `Rollback(id, N)` — loads the revision at
offset `N` (offset `0` being the most recent archived revision, as
`TestRollback` fixes), re-puts its payload as the new live revision under
the fresh timestamp `tNew`, and returns the restored revision's stored
timestamp; an offset with no stored revision is `RevisionOutOfRange` and
the state is returned unchanged. -/
def RecordState.rollback (s : RecordState) (K : Nat) (n : Nat) (tNew : Nat) :
    Except GoError Nat × RecordState :=
  match s.archived.get? n with
  | none => (.error .ErrRevisionOutOfRange, s)
  | some (t, payload) => (.ok t, s.put K tNew payload)

/-! ## Helper lemmas -/

/-- An element of `insertId l y` was in `l` or is `y`. -/
theorem mem_insertId {x : String} :
    ∀ {l : List String} {y : String}, x ∈ insertId l y → x ∈ l ∨ x = y := by
  intro l
  induction l with
  | nil =>
    intro y h
    simp only [insertId, List.mem_singleton] at h
    exact Or.inr h
  | cons a as ih =>
    intro y h
    simp only [insertId] at h
    by_cases hy : y = a
    · simp only [hy, if_pos rfl] at h
      exact Or.inl h
    · rw [if_neg hy] at h
      by_cases hlt : idLt y a = true
      · rw [if_pos hlt] at h
        rcases List.mem_cons.mp h with h1 | h1
        · exact Or.inr h1
        · exact Or.inl h1
      · rw [if_neg hlt] at h
        rcases List.mem_cons.mp h with h1 | h1
        · exact Or.inl (h1 ▸ List.mem_cons_self a as)
        · rcases ih h1 with h2 | h2
          · exact Or.inl (List.mem_cons_of_mem a h2)
          · exact Or.inr h2

/-- An element of `AddIDs acc ids` was in `acc` or in `ids`. -/
theorem mem_AddIDs {x : String} :
    ∀ {ids acc : List String}, x ∈ AddIDs acc ids → x ∈ acc ∨ x ∈ ids := by
  intro ids
  induction ids with
  | nil => intro acc h; exact Or.inl h
  | cons y ys ih =>
    intro acc h
    have h2 : x ∈ AddIDs (insertId acc y) ys := h
    rcases ih h2 with h3 | h3
    · rcases mem_insertId h3 with h4 | h4
      · exact Or.inl h4
      · exact Or.inr (h4 ▸ List.mem_cons_self y ys)
    · exact Or.inr (List.mem_cons_of_mem y h3)

/-- An element of the cursor loop result was already accumulated or is
stored under one of the walked entries. -/
theorem mem_rangeLoop {x : String} {lim : Option Key} {ke : Bool} {iql : Nat} :
    ∀ {l : List Entry} {acc : List String},
      x ∈ rangeLoop lim ke iql l acc → x ∈ acc ∨ ∃ e ∈ l, x ∈ e.2 := by
  intro l
  induction l with
  | nil => intro acc h; exact Or.inl h
  | cons e rest ih =>
    obtain ⟨k, ids⟩ := e
    intro acc h
    simp only [rangeLoop] at h
    by_cases hb : rangeBreak lim ke k = true
    · rw [if_pos hb] at h
      exact Or.inl h
    · rw [if_neg hb] at h
      by_cases hlen : (AddIDs acc ids).length > iql
      · rw [if_pos hlen] at h
        have hx : x ∈ AddIDs acc ids := List.take_subset _ _ h
        rcases mem_AddIDs hx with h1 | h1
        · exact Or.inl h1
        · exact Or.inr ⟨(k, ids), List.mem_cons_self _ _, h1⟩
      · rw [if_neg hlen] at h
        rcases ih h with h1 | ⟨e2, he2, hx2⟩
        · rcases mem_AddIDs h1 with h2 | h2
          · exact Or.inl h2
          · exact Or.inr ⟨(k, ids), List.mem_cons_self _ _, h2⟩
        · exact Or.inr ⟨e2, List.mem_cons_of_mem _ he2, hx2⟩

/-- Length bound for the cursor loop: it can never grow the accumulator
beyond `iql` — the result is at most `max acc.length iql` long. -/
theorem rangeLoop_length_le {lim : Option Key} {ke : Bool} {iql : Nat} :
    ∀ (l : List Entry) (acc : List String),
      (rangeLoop lim ke iql l acc).length ≤ max acc.length iql := by
  intro l
  induction l with
  | nil => intro acc; exact le_max_left _ _
  | cons e rest ih =>
    obtain ⟨k, ids⟩ := e
    intro acc
    simp only [rangeLoop]
    by_cases hb : rangeBreak lim ke k = true
    · rw [if_pos hb]
      exact le_max_left _ _
    · rw [if_neg hb]
      by_cases hlen : (AddIDs acc ids).length > iql
      · rw [if_pos hlen]
        calc ((AddIDs acc ids).take iql).length ≤ iql := by
              rw [List.length_take]; exact min_le_left _ _
          _ ≤ max acc.length iql := le_max_right _ _
      · rw [if_neg hlen]
        calc (rangeLoop lim ke iql rest (AddIDs acc ids)).length
            ≤ max (AddIDs acc ids).length iql := ih _
          _ ≤ max acc.length iql := by
              have : (AddIDs acc ids).length ≤ iql := not_lt.mp hlen
              omega

/-- `selectorLoop` answers `some true` exactly when the index selector is
an initial segment of the filter selector. -/
theorem selectorLoop_true_iff :
    ∀ (a b : List String), selectorLoop a b = some true ↔ ∃ rest, b = a ++ rest := by
  intro a
  induction a with
  | nil =>
    intro b
    exact ⟨fun _ => ⟨b, rfl⟩, fun _ => rfl⟩
  | cons x xs ih =>
    intro b
    cases b with
    | nil =>
      simp only [selectorLoop]
      constructor
      · intro h; cases h
      · rintro ⟨rest, h⟩; cases h
    | cons y ys =>
      simp only [selectorLoop]
      by_cases hxy : y = x
      · subst hxy
        rw [if_neg (by simp)]
        rw [ih ys]
        constructor
        · rintro ⟨rest, h⟩; exact ⟨rest, by rw [h]; rfl⟩
        · rintro ⟨rest, h⟩
          refine ⟨rest, ?_⟩
          have := List.cons.injEq y ys y (xs ++ rest) ▸ h
          simpa using h
      · rw [if_pos (by simpa using hxy)]
        constructor
        · intro h; cases h
        · rintro ⟨rest, h⟩
          exact absurd (by simpa using congrArg (List.head?) h) hxy

/-- `selectorLoop` terminates with an answer (no out-of-range access) when
the filter selector is at least as long as the index selector. -/
theorem selectorLoop_total :
    ∀ (a b : List String), a.length ≤ b.length → ∃ r, selectorLoop a b = some r := by
  intro a
  induction a with
  | nil => intro b _; exact ⟨true, rfl⟩
  | cons x xs ih =>
    intro b hlen
    cases b with
    | nil => simp at hlen
    | cons y ys =>
      simp only [selectorLoop]
      by_cases hxy : y = x
      · rw [if_neg (by simpa using hxy)]
        exact ih ys (by simpa using hlen)
      · exact ⟨false, by rw [if_pos (by simpa using hxy)]⟩

/-- Every value `newfilterValue` produces is tagged `StringIndex`,
`IntIndex` or `TimeIndex` — never `UintIndex` or `BytesIndex`. -/
theorem newfilterValue_tag {raw : GoValue} {v : FilterValue}
    (h : newfilterValue raw = .ok v) :
    v.Typ = .StringIndex ∨ v.Typ = .IntIndex ∨ v.Typ = .TimeIndex := by
  cases raw <;> simp only [newfilterValue] at h
  all_goals
    first
      | exact Except.noConfusion h
      | (injection h with h2; subst h2; simp)

/-! ## Claim C4 -/

/-- C4, counterexample: the claim reads `doesFilterApply(f)` true iff the
filter selector is element-wise equal to the index selector (same length)
and some value has the index type.  Here the filter selector
`["A", "B"]` is strictly longer than the index selector `["A"]`, so the
selectors are not element-wise equal, yet the code answers `true`: only
the first `len(i.Selector)` positions are compared. -/
theorem c4_selector_equality_cex :
    Index.DoesFilterApplyToIndex ⟨"i", ["A"], .StringIndex⟩
      { operator := .Equal, selector := ["A", "B"], selectorHash := ["A", "B"],
        values := [⟨.StringIndex, .str "x"⟩] } = some true ∧
    (["A"] : List String) ≠ ["A", "B"] := by
  constructor
  · rfl
  · decide

/-- Shared characterisation: `DoesFilterApplyToIndex` answers `true` iff
the index selector is an initial segment of the filter selector and some
filter value has the index's declared type. -/
theorem doesFilterApply_true_iff (i : Index) (f : Filter) :
    Index.DoesFilterApplyToIndex i f = some true ↔
      ((∃ rest, f.selector = i.Selector ++ rest) ∧
        ∃ v ∈ f.values, v.Typ = i.Typ) := by
  unfold Index.DoesFilterApplyToIndex
  rcases hloop : selectorLoop i.Selector f.selector with _ | b
  · constructor
    · intro h; cases h
    · rintro ⟨⟨rest, hrest⟩, -⟩
      have : selectorLoop i.Selector f.selector = some true :=
        (selectorLoop_true_iff _ _).mpr ⟨rest, hrest⟩
      rw [hloop] at this; cases this
  · cases b with
    | false =>
      constructor
      · intro h; cases h
      · rintro ⟨⟨rest, hrest⟩, -⟩
        have : selectorLoop i.Selector f.selector = some true :=
          (selectorLoop_true_iff _ _).mpr ⟨rest, hrest⟩
        rw [hloop] at this; cases this
    | true =>
      have hpre := (selectorLoop_true_iff i.Selector f.selector).mp hloop
      constructor
      · intro h
        refine ⟨hpre, ?_⟩
        have hany : (f.values.any fun value => value.Typ = i.Typ) = true := by
          simpa using h
        rcases List.any_eq_true.mp hany with ⟨v, hv, hvt⟩
        exact ⟨v, hv, by simpa using hvt⟩
      · rintro ⟨-, v, hv, hvt⟩
        have hany : (f.values.any fun value => value.Typ = i.Typ) = true :=
          List.any_eq_true.mpr ⟨v, hv, by simpa using hvt⟩
        simp [hany]

/-- C4, amended: `DoesFilterApplyToIndex` answers `true` iff the index
selector is element-wise equal to an initial segment of the filter
selector (the filter selector may be strictly longer; trailing elements
are never compared) and at least one of the filter's typed values has the
index's declared type. -/
theorem c4_doesFilterApply_true_iff (i : Index) (f : Filter) :
    Index.DoesFilterApplyToIndex i f = some true ↔
      ((∃ rest, f.selector = i.Selector ++ rest) ∧
        ∃ v ∈ f.values, v.Typ = i.Typ) :=
  doesFilterApply_true_iff i f

/-! ## Claim C8 -/

/-- C8, counterexample: the claim says `DoesFilterApplyToIndex` is total,
its selector indexing never going out of range, even for a filter selector
shorter than the index selector.  With index selector `["A", "B"]` and
filter selector `["A"]` the access `filter.selector[1]` is out of range
(a Go panic, modelled by `none`): the function does not return a
boolean. -/
theorem c8_totality_cex :
    Index.DoesFilterApplyToIndex ⟨"i", ["A", "B"], .StringIndex⟩
      { operator := .Equal, selector := ["A"], selectorHash := ["A"],
        values := [⟨.StringIndex, .str "x"⟩] } = none := by
  rfl

/-- C8, amended: `DoesFilterApplyToIndex` is total — every selector access
is in range and a boolean is returned — whenever the filter selector is at
least as long as the index selector; a strictly shorter filter selector
that agrees on its whole length makes the access `filter.selector[j]` at
`j = len(filter.selector)` go out of range. -/
theorem c8_total_of_length_le (i : Index) (f : Filter)
    (h : i.Selector.length ≤ f.selector.length) :
    ∃ b, Index.DoesFilterApplyToIndex i f = some b := by
  unfold Index.DoesFilterApplyToIndex
  rcases selectorLoop_total i.Selector f.selector h with ⟨r, hr⟩
  rw [hr]
  cases r with
  | false => exact ⟨false, rfl⟩
  | true => exact ⟨_, rfl⟩

/-- C8 witness: the totality theorem applied at a concrete index and
filter of equal selector length. -/
theorem c8_total_of_length_le_witness :
    ∃ b, Index.DoesFilterApplyToIndex ⟨"i", ["A"], .StringIndex⟩
      { operator := .Equal, selector := ["A"], selectorHash := ["A"],
        values := [⟨.StringIndex, .str "x"⟩] } = some b :=
  c8_total_of_length_le _ _ (by decide)

/-! ## Claim C5 -/

/-- C5: a third successfully parsed `CompareTo` on a `Between` filter
overwrites index 1 and then still appends, leaving three stored values
`[a, c, c]` — the code contradicts its own comment
"Limit the numbers of 2 filters" (a slip: the overwrite branch is missing
a return), so the bounded-size invariant claimed by the spec fails. -/
theorem c5_between_three_values_bug :
    (((NewFilter .Between).CompareTo (.str "a")).CompareTo
        (.str "b")).CompareTo (.str "c") =
      { operator := .Between,
        values := [⟨.StringIndex, .str "a"⟩, ⟨.StringIndex, .str "c"⟩,
                   ⟨.StringIndex, .str "c"⟩] } ∧
    ((((NewFilter .Between).CompareTo (.str "a")).CompareTo
        (.str "b")).CompareTo (.str "c")).values.length = 3 := by
  constructor <;> rfl

/-! ## Claim C7 -/

/-- C7, counterexample: the claim says a `TypeMismatch` during explicit
filter value construction is fatal and surfaces to the caller.  For the
non-indexable runtime type `float64`, `newfilterValue` does produce
`ErrWrongType`, but `CompareTo` swallows it: the call returns the filter
exactly as if it had not happened and no error reaches the caller. -/
theorem c7_silent_drop_cex :
    newfilterValue (.float64 1) = .error .ErrWrongType ∧
    (NewFilter .Equal).CompareTo (.float64 1) = NewFilter .Equal := by
  constructor <;> rfl

/-- C7, amended: `newfilterValue` rejects a non-indexable runtime type with
`ErrWrongType`, but `Filter.CompareTo` silently drops any such error,
returning its receiver unchanged — the failure never surfaces. -/
theorem c7_compareTo_drops_parse_error (f : Filter) (v : GoValue)
    (e : GoError) (h : newfilterValue v = .error e) :
    f.CompareTo v = f := by
  unfold Filter.CompareTo
  rw [h]

/-- C7 witness: the amended theorem applied to a concrete filter and the
concrete non-indexable value `float64 1`. -/
theorem c7_compareTo_drops_parse_error_witness :
    (NewFilter .Greater).CompareTo (.float64 1) = NewFilter .Greater :=
  c7_compareTo_drops_parse_error _ _ .ErrWrongType rfl

/-! ## Claim C9 -/

/-- C9, counterexample: the claim says `doesFilterApply` returns `false`
for every filter on a Bytes-typed index.  When the filter selector is a
strict initial segment of the index selector the selector loop goes out of
range (Go panic, `none`) before the type check is reached, so the call
does not return `false` — even though the filter value was produced by
`newfilterValue`. -/
theorem c9_bytes_index_cex :
    newfilterValue (.str "x") = .ok ⟨.StringIndex, .str "x"⟩ ∧
    Index.DoesFilterApplyToIndex ⟨"i", ["A", "B"], .BytesIndex⟩
      { operator := .Equal, selector := ["A"], selectorHash := ["A"],
        values := [⟨.StringIndex, .str "x"⟩] } = none ∧
    (none : Option Bool) ≠ some false := by
  refine ⟨rfl, rfl, by decide⟩

/-- C9, amended: every value `newfilterValue` produces is tagged
`StringIndex`, `IntIndex` or `TimeIndex` (unsigned inputs get the signed
tag), never `UintIndex` or `BytesIndex`; consequently a Bytes-typed index
never answers `true` to `DoesFilterApplyToIndex` for a filter whose values
all come from `newfilterValue` — it answers `false`, or faults in the
selector loop, but never `true`. -/
theorem c9_bytes_index_never_true (i : Index) (f : Filter)
    (hv : ∀ v ∈ f.values, ∃ raw, newfilterValue raw = .ok v)
    (hi : i.Typ = .BytesIndex) :
    Index.DoesFilterApplyToIndex i f ≠ some true := by
  intro h
  rcases (doesFilterApply_true_iff i f).mp h with ⟨-, v, hvmem, hvt⟩
  rcases hv v hvmem with ⟨raw, hraw⟩
  rcases newfilterValue_tag hraw with ht | ht | ht <;>
    rw [ht, hi] at hvt <;> cases hvt

/-- C9 witness: the amended theorem applied to a concrete Bytes index and
a concrete filter carrying one string value built by `newfilterValue`. -/
theorem c9_bytes_index_never_true_witness :
    Index.DoesFilterApplyToIndex ⟨"i", ["A"], .BytesIndex⟩
      { operator := .Equal, selector := ["A"], selectorHash := ["A"],
        values := [⟨.StringIndex, .str "x"⟩] } ≠ some true :=
  c9_bytes_index_never_true _ _
    (by
      intro v hv
      simp only [List.mem_singleton] at hv
      subst hv
      exact ⟨.str "x", rfl⟩)
    rfl

/-! ## Claim C2 -/

/-- C2, counterexample: the claim says an increasing range lookup whose
start key is absent still includes the ids under the smallest key greater
than `from`, for either inclusive flag.  Bucket `{[2] → [a], [4] → [b]}`,
`from = [1]` (absent, `[1] < [2] < [4]`): the smallest greater key is `[2]`
holding id `a`, yet — with `keepEqual` false or true — the result is
`[b]` only: the seek consumes the `[2]` entry without adding it and the
loop starts with `Next`. -/
theorem c2_missing_from_cex :
    getIDsForRangeOfValues [([2], ["a"]), ([4], ["b"])] [1] none false true 1000
        = ["b"] ∧
    getIDsForRangeOfValues [([2], ["a"]), ([4], ["b"])] [1] none true true 1000
        = ["b"] ∧
    bytesCompare [1] [2] = .lt ∧ bytesCompare [2] [4] = .lt ∧
    ("a" : String) ∉ (["b"] : List String) := by
  refine ⟨rfl, rfl, rfl, rfl, by decide⟩

/-- C2, amended: in an increasing range lookup whose start key is absent
from the bucket, the entry at the seek position — the smallest key greater
than `from` — is consumed without being added (the pre-loop add requires
key equality with `from`), and iteration starts after it: an id stored
under that entry and under no later walked entry is never in the result,
regardless of the inclusive flag. -/
theorem c2_missing_from_skips_successor (bucket : List Entry) (fromKey : Key)
    (lim : Option Key) (ke : Bool) (iql : Nat) (k : Key) (ids : List String)
    (x : String)
    (hfrom : ∀ e ∈ bucket, e.1 ≠ fromKey)
    (hseek : bucket.get? (seekIdx bucket fromKey) = some (k, ids))
    (hnot : ∀ e ∈ bucket.drop (seekIdx bucket fromKey + 1), x ∉ e.2) :
    x ∉ getIDsForRangeOfValues bucket fromKey lim ke true iql := by
  intro hx
  have hk : k ≠ fromKey := by
    have hmem : (k, ids) ∈ bucket := List.get?_mem hseek
    exact hfrom _ hmem
  have hacc : seekAcc bucket fromKey ke = [] := by
    unfold seekAcc
    rw [hseek]
    simp [hk]
  simp only [getIDsForRangeOfValues, if_true, hacc] at hx
  rcases mem_rangeLoop hx with h1 | ⟨e, he, hxe⟩
  · cases h1
  · exact hnot e he hxe

/-- C2 witness: the amended theorem applied to the concrete bucket
`{[2] → [a], [4] → [b]}` with the absent start key `[1]`: id `a`, stored
only under the successor key `[2]`, is missing from the result. -/
theorem c2_missing_from_skips_successor_witness :
    "a" ∉ getIDsForRangeOfValues [([2], ["a"]), ([4], ["b"])] [1] none true true 1000 :=
  c2_missing_from_skips_successor _ _ _ _ _ [2] ["a"] "a"
    (by decide) (by decide) (by decide)

/-! ## Claim C3 -/

/-- C3, counterexample: the claim says the result of
`getIDsForRangeOfValues` never holds more than `InternalQueryLimit` ids.
With `InternalQueryLimit = 2`, bucket `{[2] → [a, b, c]}` and the present,
inclusive start key `[2]`, the three ids are added before the loop (the
pre-loop seek add has no cap check) and the cursor is immediately
exhausted: the result keeps all 3 > 2 entries, untruncated. -/
theorem c3_internal_query_limit_cex :
    (getIDsForRangeOfValues [([2], ["a", "b", "c"])] [2] none true true 2).length
        = 3 ∧ 2 < 3 := by
  exact ⟨by decide, by decide⟩

/-- C3, amended: only ids accumulated by the cursor loop are capped — an
addition pushing the count past `InternalQueryLimit` truncates to exactly
the limit and stops — while the pre-loop add of the id set found at a
present, inclusive start key is uncapped; the result length is therefore
bounded by the larger of `InternalQueryLimit` and the size of that initial
add. -/
theorem c3_length_bounded (bucket : List Entry) (fromKey : Key)
    (lim : Option Key) (ke inc : Bool) (iql : Nat) :
    (getIDsForRangeOfValues bucket fromKey lim ke inc iql).length ≤
      max (seekAcc bucket fromKey ke).length iql := by
  cases inc with
  | false =>
    simpa [getIDsForRangeOfValues] using
      @rangeLoop_length_le lim ke iql
        ((bucket.take (seekIdx bucket fromKey)).reverse)
        (seekAcc bucket fromKey ke)
  | true =>
    simpa [getIDsForRangeOfValues] using
      @rangeLoop_length_le lim ke iql
        (bucket.drop (seekIdx bucket fromKey + 1))
        (seekAcc bucket fromKey ke)

/-! ## Claims C1 and C6: the versioned record store -/

/-- The revision-store model replayed against `TestRollback`
(`src/collections_test.go` lines 714–757): after the three puts of record
"1" (timestamps 2, 302, 602 in the 300-record datasets), the live payload
is the third one; `Rollback("1", 0)` returns timestamp 302 and the live
payload becomes the second put's; `Rollback("1", 2)` then returns
timestamp 2 and restores the first put's payload; `Rollback("1", 4)` fails
and the payload is unchanged. -/
theorem rollbackModel_matches_TestRollback :
    let s3 := ((RecordState.put {} 10 2 "D1").put 10 302 "D2").put 10 602 "D3"
    let r0 := s3.rollback 10 0 900
    let r2 := r0.2.rollback 10 2 901
    let r4 := r2.2.rollback 10 4 902
    s3.get = some "D3" ∧ r0.1 = .ok 302 ∧ r0.2.get = some "D2" ∧
    r2.1 = .ok 2 ∧ r2.2.get = some "D1" ∧
    r4.1 = .error .ErrRevisionOutOfRange ∧ r4.2.get = some "D1" :=
  ⟨rfl, rfl, rfl, rfl, rfl, rfl, rfl⟩

/-- C1, counterexample: the claim says `Rollback(id, 0)` re-puts the live
revision, leaving `get(id)` unchanged.  After `put "A"; put "B"` the live
payload is `"B"`, but rollback at offset 0 makes `get` return `"A"` — as
`TestRollback` demands (its offset-0 rollback returns timestamp 302, the
second of three puts, not the live 602): offset 0 addresses the most
recent archived revision, not the live one. -/
theorem c1_rollback_zero_cex :
    ((RecordState.put {} 10 1 "A").put 10 2 "B").get = some "B" ∧
    (((RecordState.put {} 10 1 "A").put 10 2 "B").rollback 10 0 3).2.get
        = some "A" ∧
    (some "A" : Option String) ≠ some "B" :=
  ⟨rfl, rfl, by decide⟩

/-- C1, amended: `Rollback(id, 0)` restores the most recent archived
revision (offset 0 denotes the first previous revision, not the live one):
whenever at least one previous revision is stored, the rollback succeeds,
returns that revision's stored timestamp, and `get(id)` afterwards returns
that revision's payload — which differs from the pre-rollback payload
whenever the previous payload differs from the live one. -/
theorem c1_rollback_zero_restores_archived_head (s : RecordState)
    (K tNew t : Nat) (p : String) (rest : List (Nat × String))
    (h : s.archived = (t, p) :: rest) :
    (s.rollback K 0 tNew).1 = .ok t ∧ (s.rollback K 0 tNew).2.get = some p := by
  unfold RecordState.rollback
  rw [h]
  exact ⟨rfl, rfl⟩

/-- C1 witness: the amended theorem applied to the concrete state reached
by `put "A"; put "B"`, whose archived list is `[(1, "A")]`. -/
theorem c1_rollback_zero_restores_archived_head_witness :
    ((((RecordState.put {} 10 1 "A").put 10 2 "B").rollback 10 0 3).1
        = .ok 1) ∧
    ((((RecordState.put {} 10 1 "A").put 10 2 "B").rollback 10 0 3).2.get
        = some "A") :=
  c1_rollback_zero_restores_archived_head _ 10 3 1 "A" [] rfl

/-- C6: a rollback offset exceeding the number of stored previous
revisions fails with `RevisionOutOfRange` and leaves the record state —
in particular the payload `get` returns — untouched. -/
theorem c6_rollback_out_of_range (s : RecordState) (K n tNew : Nat)
    (h : s.archived.length < n) :
    (s.rollback K n tNew).1 = .error .ErrRevisionOutOfRange ∧
    (s.rollback K n tNew).2 = s := by
  have hn : s.archived.get? n = none := by
    rw [List.get?_eq_none]
    omega
  unfold RecordState.rollback
  rw [hn]
  exact ⟨rfl, rfl⟩

/-- C6 witness: the theorem applied at the concrete state reached by
`put "A"; put "B"` (one stored previous revision) and offset 3. -/
theorem c6_rollback_out_of_range_witness :
    ((((RecordState.put {} 10 1 "A").put 10 2 "B").rollback 10 3 4).1
        = .error .ErrRevisionOutOfRange) ∧
    ((((RecordState.put {} 10 1 "A").put 10 2 "B").rollback 10 3 4).2
        = (RecordState.put {} 10 1 "A").put 10 2 "B") :=
  c6_rollback_out_of_range _ 10 3 4 (by decide)

/-! ## Claim C10 -/

/-- The runtime types `newIndexReference` has a type assertion for —
string, the signed and unsigned integer widths, both float widths and
`time.Time`.  A `[]byte` or any other runtime type sets no field. -/
def supportedScalar : GoValue → Bool
  | .str _ => true
  | .int _ => true
  | .int8 _ => true
  | .int16 _ => true
  | .int32 _ => true
  | .int64 _ => true
  | .uint _ => true
  | .uint8 _ => true
  | .uint16 _ => true
  | .uint32 _ => true
  | .uint64 _ => true
  | .float32 _ => true
  | .float64 _ => true
  | .time _ => true
  | _ => false

/-- The Go zero value of each scalar type: empty string, numeric zero,
zero time instant. -/
def isZeroValue : GoValue → Bool
  | .str s => s = ""
  | .int n => n = 0
  | .int8 n => n = 0
  | .int16 n => n = 0
  | .int32 n => n = 0
  | .int64 n => n = 0
  | .uint n => n = 0
  | .uint8 n => n = 0
  | .uint16 n => n = 0
  | .uint32 n => n = 0
  | .uint64 n => n = 0
  | .float32 q => q = 0
  | .float64 q => q = 0
  | .time t => t = 0
  | _ => false

/-- C10: the reference round-trip loses exactly the zero values — for a
supported scalar `v`, `GetValue(newIndexReference(name, v))` returns `v`
when `v` is not the zero value of its type, and Go `nil` (here `none`)
when it is: the stored field then holds the type's zero value, which every
`GetValue` test skips. -/
theorem c10_reference_round_trip (name : String) (v : GoValue)
    (hs : supportedScalar v = true) :
    (newIndexReference name v).GetValue =
      if isZeroValue v then none else some v := by
  cases v <;> simp only [supportedScalar] at hs <;>
    simp only [newIndexReference, IndexReference.GetValue, isZeroValue] <;>
    split_ifs <;> simp_all

/-- C10 witness: the round-trip theorem applied at the non-zero value
`uint8 200` (returned intact) and at the zero value `int 0` (lost,
`GetValue` returns `nil`). -/
theorem c10_reference_round_trip_witness :
    ((newIndexReference "n" (.uint8 200)).GetValue = some (.uint8 200)) ∧
    ((newIndexReference "n" (.int 0)).GetValue = none) := by
  constructor
  · have h := c10_reference_round_trip "n" (.uint8 200) rfl
    simpa using h
  · have h := c10_reference_round_trip "n" (.int 0) rfl
    simpa using h

end GoTinyDB
